import Mathlib

/-!
Shallow embedding of `space_sparse_vector_inter.cc` from the nmslib
repository (class `SpaceSparseVectorInter<dist_t>`), together with models
of the collaborators the file calls (the sparse-element codec, the fast
intersection primitives) that are described by the specification but whose
code is not part of this repository snapshot.

Floating-point values (`dist_t`) are modelled as exact rationals `ℚ`; on
the small integral inputs used by concrete theorems, IEEE arithmetic on
these values is exact, so the rational model agrees with the code.  The
`std::sqrt` call used to turn a squared norm into an L2 norm is kept
abstract: theorems about normalization quantify over any function
`sqrtFn : ℚ → ℚ` satisfying the properties of a square root that the
control flow depends on (`sqrtFn 0 = 0`, positivity on positive inputs).
Machine index arithmetic (`uint32_t` cursors A and B) is modelled with
`ℕ`; cursor values never exceed the vector lengths involved, all far below
`2^32`, so no wrap-around is observable.
-/

namespace SparseInter

/-- One element of a sparse vector: `SparseVectElem<dist_t>` with fields
`id_` (an unsigned integer id) and `val_` (the weight, modelled as `ℚ`). -/
structure SparseVectElem where
  id_ : ℕ
  val_ : ℚ
  deriving Repr, DecidableEq

/-- The result record of `ComputeOverlapInfo`.  Field names follow the
C++ struct `OverlapInfo` (`overlap_qty_`, `overlap_dotprod_norm_`,
`overlap_sum_left_norm_`, `overlap_sum_right_norm_`, `diff_sum_left_norm_`,
`diff_sum_right_norm_`). -/
structure OverlapInfo where
  overlap_qty_ : ℕ
  overlap_dotprod_norm_ : ℚ
  overlap_sum_left_norm_ : ℚ
  overlap_sum_right_norm_ : ℚ
  diff_sum_left_norm_ : ℚ
  diff_sum_right_norm_ : ℚ
  deriving Repr, DecidableEq

/-- Modelled from the spec: the `OverlapInfo` struct declaration is not in
this repository snapshot (only `ComputeOverlapInfo`, which relies on the
default-constructed `OverlapInfo res;` starting at zero).  Per the spec's
data model and its pinned examples, every accumulator starts at zero. -/
def overlapInfoInit : OverlapInfo :=
  { overlap_qty_ := 0
    overlap_dotprod_norm_ := 0
    overlap_sum_left_norm_ := 0
    overlap_sum_right_norm_ := 0
    diff_sum_left_norm_ := 0
    diff_sum_right_norm_ := 0 }

/-- The merge loop of `ComputeOverlapInfo` (source lines 105–124):

```
uint32_t A = 0, B = 0;
while (A < elemsA.size() && B < elemsA.size()) { ... }
```

State is kept as the unprocessed suffixes `la = elemsA.drop A` and
`lb = elemsB.drop B`, plus `bRem = elemsA.size() - B` (the right cursor is
compared against the LEFT vector's size in the source, exactly as written).
The guard `A < elemsA.size()` is `la ≠ []`; the guard `B < elemsA.size()`
is `bRem ≠ 0`.  Reading `elemsB[B]` when `B ≥ elemsB.size()` is an
out-of-bounds access; the model returns `none` there.  On normal loop exit
the remaining suffixes and the accumulator are returned. -/
def mergeLoop : List SparseVectElem → List SparseVectElem → ℕ → OverlapInfo →
    Option (List SparseVectElem × List SparseVectElem × OverlapInfo)
  | [], lb, _, res => some ([], lb, res)
  | la, lb, 0, res => some (la, lb, res)
  | _ :: _, [], _ + 1, _ => none
  | a :: la, b :: lb, bRem + 1, res =>
    if a.id_ < b.id_ then
      mergeLoop la (b :: lb) (bRem + 1)
        { res with diff_sum_left_norm_ := res.diff_sum_left_norm_ + a.val_ }
    else if b.id_ < a.id_ then
      mergeLoop (a :: la) lb bRem
        { res with diff_sum_right_norm_ := b.val_ }
    else
      mergeLoop la lb bRem
        { res with
          overlap_dotprod_norm_ := res.overlap_dotprod_norm_ + a.val_ * b.val_
          overlap_sum_left_norm_ := res.overlap_sum_left_norm_ + a.val_
          overlap_sum_right_norm_ := b.val_
          overlap_qty_ := res.overlap_qty_ + 1 }
  termination_by la lb _ _ => la.length + lb.length
  decreasing_by all_goals simp_arith

/-- The left drain loop (source lines 126–129): `diff_sum_left_norm_ +=`
over the unprocessed left suffix. -/
def drainLeft (la : List SparseVectElem) (res : OverlapInfo) : OverlapInfo :=
  la.foldl (fun r e => { r with diff_sum_left_norm_ := r.diff_sum_left_norm_ + e.val_ }) res

/-- The right drain loop (source lines 131–134): `diff_sum_right_norm_ =`
(plain assignment) over the unprocessed right suffix. -/
def drainRight (lb : List SparseVectElem) (res : OverlapInfo) : OverlapInfo :=
  lb.foldl (fun r e => { r with diff_sum_right_norm_ := e.val_ }) res

/-- Merge phase plus both drain phases of `ComputeOverlapInfo` (source
lines 105–134), before normalization.  `none` models the out-of-bounds
read of `elemsB` that the merge loop can perform. -/
def computeOverlapRaw (elemsA elemsB : List SparseVectElem) : Option OverlapInfo :=
  match mergeLoop elemsA elemsB elemsA.length overlapInfoInit with
  | none => none
  | some (la, lb, res) => some (drainRight lb (drainLeft la res))

/-- Structural facts about a terminating run of the merge loop, proved in
one functional induction: the returned suffixes are suffixes of the
inputs; the overlap count grows by at most the number of left elements
consumed; and each right-side field is either untouched or holds the value
of some element of the right input (it is written by plain assignment). -/
theorem mergeLoop_inv (la lb : List SparseVectElem) (bRem : ℕ) (res : OverlapInfo)
    (la' lb' : List SparseVectElem) (res' : OverlapInfo)
    (h : mergeLoop la lb bRem res = some (la', lb', res')) :
    la' <:+ la ∧ lb' <:+ lb ∧
    res'.overlap_qty_ + la'.length ≤ res.overlap_qty_ + la.length ∧
    (res'.diff_sum_right_norm_ = res.diff_sum_right_norm_ ∨
      res'.diff_sum_right_norm_ ∈ lb.map SparseVectElem.val_) ∧
    (res'.overlap_sum_right_norm_ = res.overlap_sum_right_norm_ ∨
      res'.overlap_sum_right_norm_ ∈ lb.map SparseVectElem.val_) := by
  induction la, lb, bRem, res using mergeLoop.induct generalizing la' lb' res' with
  | case1 lb bRem res =>
    simp [mergeLoop] at h
    obtain ⟨h1, h2, h3⟩ := h
    subst h1; subst h2; subst h3
    simp [List.nil_suffix, List.suffix_refl]
  | case2 la lb res hne =>
    simp [mergeLoop] at h
    obtain ⟨h1, h2, h3⟩ := h
    subst h1; subst h2; subst h3
    simp [List.suffix_refl]
  | case3 a la bRem res =>
    simp [mergeLoop] at h
  | case4 a la b lb bRem res hlt ih =>
    rw [mergeLoop] at h
    rw [if_pos hlt] at h
    obtain ⟨hs1, hs2, hq, hd, ho⟩ := ih _ _ _ h
    refine ⟨hs1.trans (List.suffix_cons a la), hs2, ?_, ?_, ?_⟩
    · simpa using Nat.le_succ_of_le hq
    · simpa using hd
    · simpa using ho
  | case5 a la b lb bRem res hlt hgt ih =>
    rw [mergeLoop] at h
    rw [if_neg hlt, if_pos hgt] at h
    obtain ⟨hs1, hs2, hq, hd, ho⟩ := ih _ _ _ h
    refine ⟨hs1, hs2.trans (List.suffix_cons b lb), ?_, ?_, ?_⟩
    · simpa using hq
    · rcases hd with hd | hd
      · simp at hd
        simp [hd]
      · right; simp at hd ⊢; tauto
    · rcases ho with ho | ho
      · simp at ho
        left; simpa using ho
      · right; simp at ho ⊢; tauto
  | case6 a la b lb bRem res hlt hgt ih =>
    rw [mergeLoop] at h
    rw [if_neg hlt, if_neg hgt] at h
    obtain ⟨hs1, hs2, hq, hd, ho⟩ := ih _ _ _ h
    refine ⟨hs1.trans (List.suffix_cons a la), hs2.trans (List.suffix_cons b lb), ?_, ?_, ?_⟩
    · simp at hq ⊢; omega
    · rcases hd with hd | hd
      · simp at hd
        left; simpa using hd
      · right; simp at hd ⊢; tauto
    · rcases ho with ho | ho
      · simp at ho
        simp [ho]
      · right; simp at ho ⊢; tauto

/-- When the loop budget for the right cursor (`bRem`, i.e.
`elemsA.size() - B`) never exceeds the number of right elements remaining,
the merge loop performs no out-of-bounds read. -/
theorem mergeLoop_isSome (la lb : List SparseVectElem) (bRem : ℕ) (res : OverlapInfo) :
    bRem ≤ lb.length → (mergeLoop la lb bRem res).isSome := by
  induction la, lb, bRem, res using mergeLoop.induct with
  | case1 lb bRem res => intro hlen; simp [mergeLoop]
  | case2 la lb res hne => intro hlen; simp [mergeLoop]
  | case3 a la bRem res => intro hlen; simp at hlen
  | case4 a la b lb bRem res hlt ih =>
    intro hlen
    rw [mergeLoop, if_pos hlt]
    exact ih hlen
  | case5 a la b lb bRem res hlt hgt ih =>
    intro hlen
    rw [mergeLoop, if_neg hlt, if_pos hgt]
    exact ih (by simpa using Nat.le_of_succ_le_succ hlen)
  | case6 a la b lb bRem res hlt hgt ih =>
    intro hlen
    rw [mergeLoop, if_neg hlt, if_neg hgt]
    exact ih (by simpa using Nat.le_of_succ_le_succ hlen)

/-- The left drain loop accumulates: it adds the sum of the remaining left
values into `diff_sum_left_norm_` and touches nothing else. -/
theorem drainLeft_eq (la : List SparseVectElem) (res : OverlapInfo) :
    drainLeft la res =
      { res with diff_sum_left_norm_ :=
          res.diff_sum_left_norm_ + (la.map SparseVectElem.val_).sum } := by
  induction la generalizing res with
  | nil => simp [drainLeft]
  | cons e la ih =>
    have h1 : drainLeft (e :: la) res =
        drainLeft la { res with diff_sum_left_norm_ := res.diff_sum_left_norm_ + e.val_ } := rfl
    rw [h1, ih]
    simp [add_assoc]

/-- The right drain loop overwrites: it sets `diff_sum_right_norm_` to the
value of the LAST remaining right element (leaving the field unchanged when
nothing remains) and touches nothing else. -/
theorem drainRight_eq (lb : List SparseVectElem) (res : OverlapInfo) :
    drainRight lb res =
      { res with diff_sum_right_norm_ :=
          (lb.getLast?.map SparseVectElem.val_).getD res.diff_sum_right_norm_ } := by
  induction lb generalizing res with
  | nil => simp [drainRight]
  | cons b lb ih =>
    have h1 : drainRight (b :: lb) res =
        drainRight lb { res with diff_sum_right_norm_ := b.val_ } := rfl
    rw [h1, ih]
    cases lb with
    | nil => simp
    | cons c lc =>
      obtain ⟨x, hx⟩ : ∃ x, (c :: lc).getLast? = some x := by
        cases h : (c :: lc).getLast? with
        | none => exact absurd (List.getLast?_eq_none_iff.mp h) (by simp)
        | some x => exact ⟨x, rfl⟩
      simp [List.getLast?_cons_cons, hx]

/-- Sum of the squared weights of a sparse vector, i.e. the value
accumulated into `norm_left` / `norm_right` (source lines 91–103) before
`sqrt` is applied. -/
def sumSquares (elems : List SparseVectElem) : ℚ :=
  (elems.map (fun e => e.val_ * e.val_)).sum

/-- The normalization epilogue of `ComputeOverlapInfo` (source lines
136–147): each side's fields are multiplied by the reciprocal of that
side's norm only when that norm is strictly positive; the dot product is
scaled by both sides. -/
def normalizeInfo (norm_left norm_right : ℚ) (res : OverlapInfo) : OverlapInfo :=
  let res1 :=
    if 0 < norm_left then
      { res with
        overlap_sum_left_norm_ := res.overlap_sum_left_norm_ * norm_left⁻¹
        diff_sum_left_norm_ := res.diff_sum_left_norm_ * norm_left⁻¹
        overlap_dotprod_norm_ := res.overlap_dotprod_norm_ * norm_left⁻¹ }
    else res
  if 0 < norm_right then
    { res1 with
      overlap_sum_right_norm_ := res1.overlap_sum_right_norm_ * norm_right⁻¹
      diff_sum_right_norm_ := res1.diff_sum_right_norm_ * norm_right⁻¹
      overlap_dotprod_norm_ := res1.overlap_dotprod_norm_ * norm_right⁻¹ }
  else res1

/-- `ComputeOverlapInfo` (source lines 83–150) on two already-decoded
element lists, parameterized by the square-root routine `sqrtFn` used to
turn the accumulated squared norms into L2 norms.  `none` models the
out-of-bounds read the merge loop can perform. -/
def computeOverlapInfoWith (sqrtFn : ℚ → ℚ) (elemsA elemsB : List SparseVectElem) :
    Option OverlapInfo :=
  (computeOverlapRaw elemsA elemsB).map
    (normalizeInfo (sqrtFn (sumSquares elemsA)) (sqrtFn (sumSquares elemsB)))

/-- The count of decoded left elements bounds the overlap count: the drain
phases never change `overlap_qty_`, and the merge phase increments it at
most once per consumed left element. -/
theorem computeOverlapRaw_qty_le (elemsA elemsB : List SparseVectElem) (res : OverlapInfo)
    (h : computeOverlapRaw elemsA elemsB = some res) :
    res.overlap_qty_ ≤ elemsA.length := by
  unfold computeOverlapRaw at h
  cases hm : mergeLoop elemsA elemsB elemsA.length overlapInfoInit with
  | none => rw [hm] at h; exact absurd h (by simp)
  | some out =>
    rw [hm] at h
    obtain ⟨la, lb, r⟩ := out
    obtain ⟨-, -, hq, -, -⟩ := mergeLoop_inv _ _ _ _ _ _ _ hm
    simp only [Option.some.injEq] at h
    subst h
    rw [drainLeft_eq, drainRight_eq]
    simpa [overlapInfoInit] using Nat.le_trans (Nat.le_add_right _ _) hq

/-- The accumulated squared norm is a sum of squares, hence nonnegative. -/
theorem sumSquares_nonneg (elems : List SparseVectElem) : 0 ≤ sumSquares elems := by
  refine List.sum_nonneg ?_
  intro x hx
  simp only [List.mem_map] at hx
  obtain ⟨e, -, he⟩ := hx
  exact he ▸ mul_self_nonneg _

/-- Normalization never changes the overlap count. -/
theorem normalizeInfo_qty (norm_left norm_right : ℚ) (res : OverlapInfo) :
    (normalizeInfo norm_left norm_right res).overlap_qty_ = res.overlap_qty_ := by
  by_cases h1 : 0 < norm_left <;> by_cases h2 : 0 < norm_right <;>
    simp [normalizeInfo, h1, h2]

/-- Sorted-ascending-with-unique-ids precondition on an element list. -/
def sortedUniqueIds (v : List SparseVectElem) : Prop :=
  List.Chain' (fun a b => a.id_ < b.id_) v

/-- C1: the spec's merge scan is stated to run while BOTH lists have
remaining elements, ending only when the left cursor reaches the left
length or the right cursor reaches the right length.  The code instead
compares the right cursor against the LEFT list's size
(`while (A < elemsA.size() && B < elemsA.size())`, line 107).  Evaluating
the embedded loop on `elemsA = [(10,1)]`, `elemsB = [(1,1),(2,1)]` (both
sorted with unique ids): after one iteration the right cursor equals
`elemsA.size() = 1` and the loop stops, returning nonempty unprocessed
suffixes on BOTH sides — neither list is exhausted, refuting the claimed
termination condition and confirming the defect the spec itself flags. -/
theorem spec_C1 :
    mergeLoop [⟨10, 1⟩] [⟨1, 1⟩, ⟨2, 1⟩]
        ([(⟨10, 1⟩ : SparseVectElem)] : List SparseVectElem).length overlapInfoInit =
      some ([⟨10, 1⟩], [⟨2, 1⟩], { overlapInfoInit with diff_sum_right_norm_ := 1 }) ∧
    ([(⟨10, 1⟩ : SparseVectElem)] : List SparseVectElem) ≠ [] ∧
    ([(⟨2, 1⟩ : SparseVectElem)] : List SparseVectElem) ≠ [] := by
  refine ⟨?_, by simp, by simp⟩
  simp [mergeLoop, overlapInfoInit]

/-- C2: the left-side accumulators are built with `+=` while the
right-side accumulators are written with plain `=`: after the merge and
drain phases each right-side field is either still zero (never written) or
equal to a single value of the right vector — the value last written —
never a sum; normalization then multiplies it by the reciprocal factor.
The two concrete conjuncts pin the contrast: draining the right tail
`[(1,2),(2,3)]` leaves `3` (the last value, not the sum `5`), while
draining the left tail `[(1,2),(2,3)]` accumulates the sum `5`. -/
theorem spec_C2 :
    (∀ elemsA elemsB res, computeOverlapRaw elemsA elemsB = some res →
      (res.diff_sum_right_norm_ = 0 ∨
        res.diff_sum_right_norm_ ∈ elemsB.map SparseVectElem.val_) ∧
      (res.overlap_sum_right_norm_ = 0 ∨
        res.overlap_sum_right_norm_ ∈ elemsB.map SparseVectElem.val_)) ∧
    (∀ norm_left norm_right res, 0 < norm_right →
      (normalizeInfo norm_left norm_right res).diff_sum_right_norm_ =
        res.diff_sum_right_norm_ * norm_right⁻¹ ∧
      (normalizeInfo norm_left norm_right res).overlap_sum_right_norm_ =
        res.overlap_sum_right_norm_ * norm_right⁻¹) ∧
    computeOverlapRaw [] [⟨1, 2⟩, ⟨2, 3⟩] =
      some { overlapInfoInit with diff_sum_right_norm_ := 3 } ∧
    computeOverlapRaw [⟨1, 2⟩, ⟨2, 3⟩] [⟨5, 9⟩] =
      some { overlapInfoInit with diff_sum_left_norm_ := 5, diff_sum_right_norm_ := 9 } := by
  refine ⟨?_, ?_, ?_, ?_⟩
  · intro elemsA elemsB res h
    unfold computeOverlapRaw at h
    cases hm : mergeLoop elemsA elemsB elemsA.length overlapInfoInit with
    | none => rw [hm] at h; exact absurd h (by simp)
    | some out =>
      rw [hm] at h
      obtain ⟨la, lb, r⟩ := out
      obtain ⟨-, hsuf, -, hd, ho⟩ := mergeLoop_inv _ _ _ _ _ _ _ hm
      simp only [Option.some.injEq] at h
      subst h
      rw [drainLeft_eq, drainRight_eq]
      constructor
      · cases hlast : lb.getLast? with
        | none =>
          simp only [hlast, Option.map_none', Option.getD_none]
          simpa [overlapInfoInit] using hd
        | some x =>
          right
          have hxlb : x ∈ lb := by
            obtain ⟨hne, hx⟩ :=
              List.mem_getLast?_eq_getLast (Option.mem_def.mpr hlast)
            exact hx ▸ List.getLast_mem hne
          have hmem : x ∈ elemsB := hsuf.subset hxlb
          simp only [hlast, Option.map_some', Option.getD_some, List.mem_map]
          exact ⟨x, hmem, rfl⟩
      · simpa [overlapInfoInit] using ho
  · intro norm_left norm_right res h
    by_cases hl : 0 < norm_left <;> simp [normalizeInfo, hl, h]
  · simp [computeOverlapRaw, mergeLoop, drainLeft, drainRight, overlapInfoInit]
  · simp [computeOverlapRaw, mergeLoop, drainLeft, drainRight, overlapInfoInit]
    norm_num

theorem spec_C2_witness :
    computeOverlapRaw [⟨1, 1⟩] [⟨1, 4⟩] = some ⟨1, 4, 1, 4, 0, 0⟩ ∧
    ((⟨1, 4, 1, 4, 0, 0⟩ : OverlapInfo).overlap_sum_right_norm_ = 0 ∨
      (⟨1, 4, 1, 4, 0, 0⟩ : OverlapInfo).overlap_sum_right_norm_ ∈
        [(⟨1, 4⟩ : SparseVectElem)].map SparseVectElem.val_) := by
  have h : computeOverlapRaw [⟨1, 1⟩] [⟨1, 4⟩] = some ⟨1, 4, 1, 4, 0, 0⟩ := by
    simp [computeOverlapRaw, mergeLoop, drainLeft, drainRight, overlapInfoInit]
  exact ⟨h, (spec_C2.1 [⟨1, 1⟩] [⟨1, 4⟩] ⟨1, 4, 1, 4, 0, 0⟩ h).2⟩

/-- C3: because the merge loop's guard compares the right cursor with the
LEFT length, a strictly shorter right vector leads to an out-of-bounds
read of `elemsB` (modelled as `none`): witnessed by the sorted unique-id
inputs `[(1,1),(2,1)]` and `[(1,1)]`.  Conversely, whenever the right list
is at least as long as the left one, the guard `B < elemsA.size()` keeps
`B` below `elemsB.size()`, so every access is in bounds and the whole
merge-plus-drain computation succeeds. -/
theorem spec_C3 :
    (sortedUniqueIds [⟨1, 1⟩, ⟨2, 1⟩] ∧ sortedUniqueIds [⟨1, 1⟩] ∧
      ([(⟨1, 1⟩ : SparseVectElem)] : List SparseVectElem).length <
        ([⟨1, 1⟩, ⟨2, 1⟩] : List SparseVectElem).length ∧
      computeOverlapRaw [⟨1, 1⟩, ⟨2, 1⟩] [⟨1, 1⟩] = none) ∧
    ∀ elemsA elemsB : List SparseVectElem, elemsA.length ≤ elemsB.length →
      (computeOverlapRaw elemsA elemsB).isSome := by
  constructor
  · refine ⟨?_, ?_, by decide, ?_⟩
    · simp [sortedUniqueIds, List.chain'_cons, List.chain'_singleton]
    · simp [sortedUniqueIds, List.chain'_singleton]
    · simp [computeOverlapRaw, mergeLoop]
  · intro elemsA elemsB hlen
    unfold computeOverlapRaw
    have hs := mergeLoop_isSome elemsA elemsB elemsA.length overlapInfoInit hlen
    cases hm : mergeLoop elemsA elemsB elemsA.length overlapInfoInit with
    | none => rw [hm] at hs; exact absurd hs (by simp)
    | some out => obtain ⟨la, lb, r⟩ := out; simp

theorem spec_C3_witness :
    ([(⟨1, 1⟩ : SparseVectElem)] : List SparseVectElem).length ≤
      ([⟨2, 2⟩, ⟨3, 3⟩] : List SparseVectElem).length ∧
    (computeOverlapRaw [⟨1, 1⟩] [⟨2, 2⟩, ⟨3, 3⟩]).isSome :=
  ⟨by decide, spec_C3.2 [⟨1, 1⟩] [⟨2, 2⟩, ⟨3, 3⟩] (by decide)⟩

/-- C4 counterexample: on `vecA = [(1,1),(2,1)]`, `vecB = [(3,1),(4,1)]`
(disjoint id sets, all weights nonzero) the code returns, before
normalization, `diff_sum_right_norm_ = 1` — the LAST weight of vecB only —
whereas the claim asserts it equals the sum `2` of vecB's weights. -/
theorem spec_C4_cex :
    ∃ res, computeOverlapRaw [⟨1, 1⟩, ⟨2, 1⟩] [⟨3, 1⟩, ⟨4, 1⟩] = some res ∧
      res.diff_sum_right_norm_ = 1 ∧
      (([⟨3, 1⟩, ⟨4, 1⟩] : List SparseVectElem).map SparseVectElem.val_).sum = 2 ∧
      res.diff_sum_right_norm_ ≠
        (([⟨3, 1⟩, ⟨4, 1⟩] : List SparseVectElem).map SparseVectElem.val_).sum := by
  refine ⟨{ overlapInfoInit with diff_sum_left_norm_ := 2, diff_sum_right_norm_ := 1 },
    ?_, by simp [overlapInfoInit], by norm_num, by simp [overlapInfoInit]⟩
  simp [computeOverlapRaw, mergeLoop, drainLeft, drainRight, overlapInfoInit]
  norm_num

/-- C4 (amended): on disjoint inputs `vecA = [(1,a1),(2,a2)]`,
`vecB = [(3,b1),(4,b2)]`, the overlap count is `0` and, before
normalization, `diff_sum_left_norm_` is the full sum `a1 + a2` of vecA's
weights, while `diff_sum_right_norm_` is only vecB's LAST weight `b2`
(plain assignment, not accumulation); all overlap fields stay zero. -/
theorem spec_C4 (a1 a2 b1 b2 : ℚ) :
    computeOverlapRaw [⟨1, a1⟩, ⟨2, a2⟩] [⟨3, b1⟩, ⟨4, b2⟩] =
      some { overlapInfoInit with
        diff_sum_left_norm_ := a1 + a2
        diff_sum_right_norm_ := b2 } := by
  simp [computeOverlapRaw, mergeLoop, drainLeft, drainRight, overlapInfoInit]

/-- C6: each `Norm` field is divided by the corresponding L2 norm only
when that norm is strictly positive.  `sqrtFn` is any square-root routine
(the code uses `std::sqrt`) with `sqrtFn 0 = 0` and positivity on positive
inputs; the accumulated squared norms are nonnegative, so the two cases
below are exhaustive.  When a squared norm is zero the corresponding
normalization step is skipped and the raw value is kept; when it is
positive the divisor `sqrtFn (sumSquares _)` is itself strictly positive,
so no division by zero ever occurs; the dot product is scaled once per
strictly positive side. -/
theorem spec_C6 (sqrtFn : ℚ → ℚ) (hsqrt0 : sqrtFn 0 = 0)
    (hsqrtPos : ∀ x : ℚ, 0 < x → 0 < sqrtFn x)
    (elemsA elemsB : List SparseVectElem) (res : OverlapInfo)
    (h : computeOverlapRaw elemsA elemsB = some res) :
    ∃ nres, computeOverlapInfoWith sqrtFn elemsA elemsB = some nres ∧
      (0 ≤ sumSquares elemsA ∧ 0 ≤ sumSquares elemsB) ∧
      (sumSquares elemsA = 0 →
        nres.overlap_sum_left_norm_ = res.overlap_sum_left_norm_ ∧
        nres.diff_sum_left_norm_ = res.diff_sum_left_norm_) ∧
      (sumSquares elemsB = 0 →
        nres.overlap_sum_right_norm_ = res.overlap_sum_right_norm_ ∧
        nres.diff_sum_right_norm_ = res.diff_sum_right_norm_) ∧
      (sumSquares elemsA = 0 → sumSquares elemsB = 0 → nres = res) ∧
      (0 < sumSquares elemsA →
        0 < sqrtFn (sumSquares elemsA) ∧
        nres.overlap_sum_left_norm_ =
          res.overlap_sum_left_norm_ / sqrtFn (sumSquares elemsA) ∧
        nres.diff_sum_left_norm_ =
          res.diff_sum_left_norm_ / sqrtFn (sumSquares elemsA)) ∧
      (0 < sumSquares elemsB →
        0 < sqrtFn (sumSquares elemsB) ∧
        nres.overlap_sum_right_norm_ =
          res.overlap_sum_right_norm_ / sqrtFn (sumSquares elemsB) ∧
        nres.diff_sum_right_norm_ =
          res.diff_sum_right_norm_ / sqrtFn (sumSquares elemsB)) ∧
      (0 < sumSquares elemsA → 0 < sumSquares elemsB →
        nres.overlap_dotprod_norm_ =
          res.overlap_dotprod_norm_ / sqrtFn (sumSquares elemsA) /
            sqrtFn (sumSquares elemsB)) ∧
      (0 < sumSquares elemsA → sumSquares elemsB = 0 →
        nres.overlap_dotprod_norm_ =
          res.overlap_dotprod_norm_ / sqrtFn (sumSquares elemsA)) ∧
      (sumSquares elemsA = 0 → 0 < sumSquares elemsB →
        nres.overlap_dotprod_norm_ =
          res.overlap_dotprod_norm_ / sqrtFn (sumSquares elemsB)) := by
  refine ⟨normalizeInfo (sqrtFn (sumSquares elemsA)) (sqrtFn (sumSquares elemsB)) res,
    by simp [computeOverlapInfoWith, h], ⟨sumSquares_nonneg _, sumSquares_nonneg _⟩,
    ?_, ?_, ?_, ?_, ?_, ?_, ?_, ?_⟩
  · intro hza
    by_cases hr : 0 < sqrtFn (sumSquares elemsB) <;>
      simp [normalizeInfo, hza, hsqrt0, hr]
  · intro hzb
    by_cases hl : 0 < sqrtFn (sumSquares elemsA) <;>
      simp [normalizeInfo, hzb, hsqrt0, hl]
  · intro hza hzb
    simp [normalizeInfo, hza, hzb, hsqrt0]
  · intro hpa
    have hl := hsqrtPos _ hpa
    by_cases hr : 0 < sqrtFn (sumSquares elemsB) <;>
      simp [normalizeInfo, hl, hr, div_eq_mul_inv]
  · intro hpb
    have hr := hsqrtPos _ hpb
    by_cases hl : 0 < sqrtFn (sumSquares elemsA) <;>
      simp [normalizeInfo, hl, hr, div_eq_mul_inv]
  · intro hpa hpb
    have hl := hsqrtPos _ hpa
    have hr := hsqrtPos _ hpb
    simp [normalizeInfo, hl, hr, div_eq_mul_inv]
  · intro hpa hzb
    have hl := hsqrtPos _ hpa
    simp [normalizeInfo, hl, hzb, hsqrt0, div_eq_mul_inv]
  · intro hza hpb
    have hr := hsqrtPos _ hpb
    simp [normalizeInfo, hza, hsqrt0, hr, div_eq_mul_inv]

theorem spec_C6_witness :
    ((fun x : ℚ => x) 0 = 0) ∧
    (∃ nres, computeOverlapInfoWith (fun x : ℚ => x) [⟨1, 0⟩] [⟨1, 2⟩] = some nres ∧
      (0 ≤ sumSquares [(⟨1, 0⟩ : SparseVectElem)] ∧
        0 ≤ sumSquares [(⟨1, 2⟩ : SparseVectElem)]) ∧
      (sumSquares [(⟨1, 0⟩ : SparseVectElem)] = 0 →
        nres.overlap_sum_left_norm_ =
          (OverlapInfo.overlap_sum_left_norm_ ⟨1, 0, 0, 2, 0, 0⟩) ∧
        nres.diff_sum_left_norm_ =
          (OverlapInfo.diff_sum_left_norm_ ⟨1, 0, 0, 2, 0, 0⟩)) ∧
      (sumSquares [(⟨1, 2⟩ : SparseVectElem)] = 0 →
        nres.overlap_sum_right_norm_ =
          (OverlapInfo.overlap_sum_right_norm_ ⟨1, 0, 0, 2, 0, 0⟩) ∧
        nres.diff_sum_right_norm_ =
          (OverlapInfo.diff_sum_right_norm_ ⟨1, 0, 0, 2, 0, 0⟩)) ∧
      (sumSquares [(⟨1, 0⟩ : SparseVectElem)] = 0 →
        sumSquares [(⟨1, 2⟩ : SparseVectElem)] = 0 →
        nres = ⟨1, 0, 0, 2, 0, 0⟩) ∧
      (0 < sumSquares [(⟨1, 0⟩ : SparseVectElem)] →
        0 < (fun x : ℚ => x) (sumSquares [(⟨1, 0⟩ : SparseVectElem)]) ∧
        nres.overlap_sum_left_norm_ =
          (OverlapInfo.overlap_sum_left_norm_ ⟨1, 0, 0, 2, 0, 0⟩) /
            (fun x : ℚ => x) (sumSquares [(⟨1, 0⟩ : SparseVectElem)]) ∧
        nres.diff_sum_left_norm_ =
          (OverlapInfo.diff_sum_left_norm_ ⟨1, 0, 0, 2, 0, 0⟩) /
            (fun x : ℚ => x) (sumSquares [(⟨1, 0⟩ : SparseVectElem)])) ∧
      (0 < sumSquares [(⟨1, 2⟩ : SparseVectElem)] →
        0 < (fun x : ℚ => x) (sumSquares [(⟨1, 2⟩ : SparseVectElem)]) ∧
        nres.overlap_sum_right_norm_ =
          (OverlapInfo.overlap_sum_right_norm_ ⟨1, 0, 0, 2, 0, 0⟩) /
            (fun x : ℚ => x) (sumSquares [(⟨1, 2⟩ : SparseVectElem)]) ∧
        nres.diff_sum_right_norm_ =
          (OverlapInfo.diff_sum_right_norm_ ⟨1, 0, 0, 2, 0, 0⟩) /
            (fun x : ℚ => x) (sumSquares [(⟨1, 2⟩ : SparseVectElem)])) ∧
      (0 < sumSquares [(⟨1, 0⟩ : SparseVectElem)] →
        0 < sumSquares [(⟨1, 2⟩ : SparseVectElem)] →
        nres.overlap_dotprod_norm_ =
          (OverlapInfo.overlap_dotprod_norm_ ⟨1, 0, 0, 2, 0, 0⟩) /
            (fun x : ℚ => x) (sumSquares [(⟨1, 0⟩ : SparseVectElem)]) /
            (fun x : ℚ => x) (sumSquares [(⟨1, 2⟩ : SparseVectElem)])) ∧
      (0 < sumSquares [(⟨1, 0⟩ : SparseVectElem)] →
        sumSquares [(⟨1, 2⟩ : SparseVectElem)] = 0 →
        nres.overlap_dotprod_norm_ =
          (OverlapInfo.overlap_dotprod_norm_ ⟨1, 0, 0, 2, 0, 0⟩) /
            (fun x : ℚ => x) (sumSquares [(⟨1, 0⟩ : SparseVectElem)])) ∧
      (sumSquares [(⟨1, 0⟩ : SparseVectElem)] = 0 →
        0 < sumSquares [(⟨1, 2⟩ : SparseVectElem)] →
        nres.overlap_dotprod_norm_ =
          (OverlapInfo.overlap_dotprod_norm_ ⟨1, 0, 0, 2, 0, 0⟩) /
            (fun x : ℚ => x) (sumSquares [(⟨1, 2⟩ : SparseVectElem)]))) :=
  ⟨rfl, spec_C6 (fun x : ℚ => x) rfl (fun x hx => hx) [⟨1, 0⟩] [⟨1, 2⟩] ⟨1, 0, 0, 2, 0, 0⟩
    (by simp [computeOverlapRaw, mergeLoop, drainLeft, drainRight, overlapInfoInit])⟩

/-- C10: the overlap count of the returned `OverlapInfo` never exceeds the
number of elements decoded from the first (left) input: it is incremented
only on a match, every match consumes a left element, and neither the
drain phases nor normalization touch it. -/
theorem spec_C10 (sqrtFn : ℚ → ℚ) (elemsA elemsB : List SparseVectElem)
    (res : OverlapInfo)
    (h : computeOverlapInfoWith sqrtFn elemsA elemsB = some res) :
    res.overlap_qty_ ≤ elemsA.length := by
  unfold computeOverlapInfoWith at h
  obtain ⟨r, hr, hmap⟩ := Option.map_eq_some'.mp h
  have hq := computeOverlapRaw_qty_le elemsA elemsB r hr
  calc res.overlap_qty_
      = r.overlap_qty_ := by rw [← hmap, normalizeInfo_qty]
    _ ≤ elemsA.length := hq

theorem spec_C10_witness :
    computeOverlapInfoWith (fun x : ℚ => x) [⟨1, 1⟩] [⟨1, 1⟩] =
      some ⟨1, 1, 1, 1, 0, 0⟩ ∧
    (OverlapInfo.overlap_qty_ ⟨1, 1, 1, 1, 0, 0⟩) ≤
      ([(⟨1, 1⟩ : SparseVectElem)] : List SparseVectElem).length := by
  have h : computeOverlapInfoWith (fun x : ℚ => x) [⟨1, 1⟩] [⟨1, 1⟩] =
      some ⟨1, 1, 1, 1, 0, 0⟩ := by
    simp [computeOverlapInfoWith, computeOverlapRaw, mergeLoop, drainLeft, drainRight,
      normalizeInfo, sumSquares, overlapInfoInit]
  exact ⟨h, spec_C10 (fun x : ℚ => x) [⟨1, 1⟩] [⟨1, 1⟩] ⟨1, 1, 1, 1, 0, 0⟩ h⟩

/-- One item of the serialized payload: the codec's byte buffer is
modelled as a list of tagged items (counts/ids as naturals, weights as
rationals). -/
inductive PayloadItem where
  | nat (n : ℕ)
  | rat (q : ℚ)
  deriving Repr, DecidableEq

/-- Modelled from the spec: `PackSparseElements` (declared in a header
that is not part of this repository snapshot) serializes the ordered
element list into a buffer sized exactly to the encoded content — the
element count followed by each element's id and value, in order. -/
def packSparseElements (v : List SparseVectElem) : List PayloadItem :=
  PayloadItem.nat v.length ::
    (v.map (fun e => [PayloadItem.nat e.id_, PayloadItem.rat e.val_])).flatten

/-- Modelled from the spec: the element-parsing phase of
`UnpackSparseElements` — read exactly `n` (id, value) pairs and require
the buffer to end there; any truncated or structurally invalid input is a
decode failure (`none`). -/
def unpackElems : ℕ → List PayloadItem → Option (List SparseVectElem)
  | 0, [] => some []
  | 0, _ :: _ => none
  | n + 1, PayloadItem.nat i :: PayloadItem.rat q :: rest =>
    (unpackElems n rest).map (fun tail => ⟨i, q⟩ :: tail)
  | _ + 1, _ => none

/-- Modelled from the spec: `UnpackSparseElements` — parse the element
count then the elements; fail on malformed input. -/
def unpackSparseElements (data : List PayloadItem) : Option (List SparseVectElem) :=
  match data with
  | PayloadItem.nat n :: rest => unpackElems n rest
  | _ => none

/-- The storage record: `Object(id, label, datalength, data)`.  Its
constructor is external to this repository snapshot; per the spec it is an
immutable container for the payload produced by the encoder. -/
structure Object where
  id_ : ℤ
  label_ : ℤ
  data_ : List PayloadItem
  deriving Repr, DecidableEq

/-- `CreateObjFromVect` (source lines 53–65), success path: pack the
input vector and hand the buffer to a freshly constructed record. -/
def createObjFromVect (id : ℤ) (label : ℤ) (InpVect : List SparseVectElem) : Object :=
  ⟨id, label, packSparseElements InpVect⟩

/-- `CreateVectFromObj` (source lines 47–51): decode the record's payload
into an element list. -/
def createVectFromObj (obj : Object) : Option (List SparseVectElem) :=
  unpackSparseElements obj.data_

/-- Decoding inverts encoding at the element-list level. -/
theorem unpackElems_pack (v : List SparseVectElem) :
    unpackElems v.length
      ((v.map (fun e => [PayloadItem.nat e.id_, PayloadItem.rat e.val_])).flatten) = some v := by
  induction v with
  | nil => rfl
  | cons e tl ih => simp [unpackElems, ih]

/-- C5: encode-then-decode is the identity on any sorted unique-id element
list: `CreateVectFromObj (CreateObjFromVect id label v) = v`, preserving
order, ids and values. -/
theorem spec_C5 (id label : ℤ) (v : List SparseVectElem) (_hsorted : sortedUniqueIds v) :
    createVectFromObj (createObjFromVect id label v) = some v := by
  unfold createVectFromObj createObjFromVect unpackSparseElements packSparseElements
  exact unpackElems_pack v

theorem spec_C5_witness :
    sortedUniqueIds [⟨1, 1⟩, ⟨3, 2⟩] ∧
    createVectFromObj (createObjFromVect 7 8 [⟨1, 1⟩, ⟨3, 2⟩]) = some [⟨1, 1⟩, ⟨3, 2⟩] :=
  ⟨by simp [sortedUniqueIds, List.chain'_cons, List.chain'_singleton],
    spec_C5 7 8 [⟨1, 1⟩, ⟨3, 2⟩]
      (by simp [sortedUniqueIds, List.chain'_cons, List.chain'_singleton])⟩

/-- Modelled from the spec: `IntersectSizeScalarFast` (declared in
`distcomp.h`, not in this repository snapshot) — linear merge over two
sorted unique-id sequences, advancing the pointer with the smaller current
id and counting matches. -/
def intersectSizeScalarFast : List ℕ → List ℕ → ℕ
  | [], _ => 0
  | _ :: _, [] => 0
  | a :: xs, b :: ys =>
    if a < b then intersectSizeScalarFast xs (b :: ys)
    else if b < a then intersectSizeScalarFast (a :: xs) ys
    else intersectSizeScalarFast xs ys + 1
  termination_by xs ys => xs.length + ys.length
  decreasing_by all_goals simp_arith

/-- The two-argument `ComputeOverlap` (source lines 67–81): decode both
records, extract the id sequences and count the intersection. -/
def computeOverlap (obj1 obj2 : Object) : Option ℕ :=
  match unpackSparseElements obj1.data_, unpackSparseElements obj2.data_ with
  | some elems1, some elems2 =>
    some (intersectSizeScalarFast (elems1.map SparseVectElem.id_)
      (elems2.map SparseVectElem.id_))
  | _, _ => none

/-- C8: pairwise `ComputeOverlap` on records decoding to the sorted unique
id sets `{1,3,5,7}` and `{3,5,9}` returns `2`, the number of common ids. -/
theorem spec_C8 :
    computeOverlap (createObjFromVect 0 0 [⟨1, 1⟩, ⟨3, 1⟩, ⟨5, 1⟩, ⟨7, 1⟩])
      (createObjFromVect 1 0 [⟨3, 1⟩, ⟨5, 1⟩, ⟨9, 1⟩]) = some 2 := by
  simp [computeOverlap, createObjFromVect, packSparseElements, unpackSparseElements,
    unpackElems, intersectSizeScalarFast]

/-- The projection loop of `CreateDenseVectFromObj` (source lines 35–44):
zero-fill the `nElem`-slot dense output, then for each decoded element add
its weight into slot `indexHash(id) % nElem`.  `indexHash` is the fixed
deterministic `std::hash<size_t>` instance, kept as a parameter. -/
def projectDense (indexHash : ℕ → ℕ) (target : List SparseVectElem) (nElem : ℕ) :
    ℕ → ℚ :=
  target.foldl
    (fun pVect e => fun i =>
      if i = indexHash e.id_ % nElem then pVect i + e.val_ else pVect i)
    (fun _ => 0)

/-- `CreateDenseVectFromObj` (source lines 30–45): decode the record, then
project the element list into the dense array. -/
def createDenseVectFromObj (indexHash : ℕ → ℕ) (obj : Object) (nElem : ℕ) :
    Option (ℕ → ℚ) :=
  (unpackSparseElements obj.data_).map (fun target => projectDense indexHash target nElem)

/-- Each slot of the projection holds the sum of the weights of exactly
the elements hashing to it (generalized over the running array). -/
theorem projectDense_foldl (indexHash : ℕ → ℕ) (target : List SparseVectElem)
    (nElem : ℕ) (f : ℕ → ℚ) (j : ℕ) :
    (target.foldl
        (fun pVect e => fun i =>
          if i = indexHash e.id_ % nElem then pVect i + e.val_ else pVect i) f) j =
      f j + ((target.filter (fun e => indexHash e.id_ % nElem = j)).map
        SparseVectElem.val_).sum := by
  induction target generalizing f with
  | nil => simp
  | cons e tl ih =>
    rw [List.foldl_cons, ih]
    by_cases hj : indexHash e.id_ % nElem = j
    · simp [hj, List.filter_cons, add_assoc]
    · have hj' : ¬ j = indexHash e.id_ % nElem := fun hc => hj hc.symm
      simp [hj, hj', List.filter_cons]

/-- Slot characterization of `projectDense`. -/
theorem projectDense_apply (indexHash : ℕ → ℕ) (target : List SparseVectElem)
    (nElem : ℕ) (j : ℕ) :
    projectDense indexHash target nElem j =
      ((target.filter (fun e => indexHash e.id_ % nElem = j)).map
        SparseVectElem.val_).sum := by
  unfold projectDense
  rw [projectDense_foldl]
  simp

/-- C7: `CreateDenseVectFromObj` zero-initializes the dense output and
ADDS each decoded element's weight into slot `indexHash(id) % nElem`
computed with the fixed deterministic hash: every slot holds the sum of
the weights of the elements hashing to it, a slot hit by no element stays
`0`, and two colliding elements with weights `1` and `2` leave `3` in
their common slot (accumulated, not overwritten). -/
theorem spec_C7 (indexHash : ℕ → ℕ) (obj : Object) (nElem : ℕ)
    (target : List SparseVectElem)
    (hdec : unpackSparseElements obj.data_ = some target) (_hn : 0 < nElem) :
    (createDenseVectFromObj indexHash obj nElem =
        some (projectDense indexHash target nElem)) ∧
    (∀ j, projectDense indexHash target nElem j =
      ((target.filter (fun e => indexHash e.id_ % nElem = j)).map
        SparseVectElem.val_).sum) ∧
    (∀ j, (∀ e ∈ target, indexHash e.id_ % nElem ≠ j) →
      projectDense indexHash target nElem j = 0) ∧
    (∀ A B : ℕ, indexHash A % nElem = indexHash B % nElem →
      projectDense indexHash [⟨A, 1⟩, ⟨B, 2⟩] nElem (indexHash A % nElem) = 3) := by
  refine ⟨by simp [createDenseVectFromObj, hdec], fun j => projectDense_apply _ _ _ _,
    ?_, ?_⟩
  · intro j hnone
    rw [projectDense_apply]
    have : target.filter (fun e => indexHash e.id_ % nElem = j) = [] := by
      refine List.filter_eq_nil_iff.mpr ?_
      intro e he
      simpa using hnone e he
    simp [this]
  · intro A B hAB
    rw [projectDense_apply]
    simp [List.filter_cons, hAB]
    norm_num

theorem spec_C7_witness :
    unpackSparseElements (createObjFromVect 0 0 [⟨1, 1⟩, ⟨5, 2⟩]).data_ =
      some [⟨1, 1⟩, ⟨5, 2⟩] ∧
    0 < 4 ∧
    (∀ A B : ℕ, (fun x : ℕ => x) A % 4 = (fun x : ℕ => x) B % 4 →
      projectDense (fun x : ℕ => x) [⟨A, 1⟩, ⟨B, 2⟩] 4 ((fun x : ℕ => x) A % 4) = 3) ∧
    projectDense (fun x : ℕ => x) [⟨1, 1⟩, ⟨5, 2⟩] 4 1 = 3 := by
  have hdec : unpackSparseElements (createObjFromVect 0 0 [⟨1, 1⟩, ⟨5, 2⟩]).data_ =
      some [⟨1, 1⟩, ⟨5, 2⟩] := by
    simp [createObjFromVect, packSparseElements, unpackSparseElements, unpackElems]
  have hmain := (spec_C7 (fun x : ℕ => x) (createObjFromVect 0 0 [⟨1, 1⟩, ⟨5, 2⟩]) 4
    [⟨1, 1⟩, ⟨5, 2⟩] hdec (by decide)).2.2.2
  refine ⟨hdec, by decide, hmain, ?_⟩
  simpa using hmain 1 5 (by decide)

/-- The three ways the modelled `PackSparseElements` call can unfold with
respect to buffer allocation: return normally, throw before allocating the
payload buffer, or throw after allocating it. -/
inductive PackOutcome where
  | ok
  | failBeforeAlloc
  | failAfterAlloc
  deriving Repr, DecidableEq

/-- Heap bookkeeping for the encoder's temporary buffer: fresh buffer
names, the buffers ever allocated (`new char[...]`) and the free
operations performed (`delete[]`, NULL deletes excluded as no-ops). -/
structure AllocState where
  nextBuf : ℕ
  allocated : List ℕ
  freed : List ℕ
  deriving Repr, DecidableEq

/-- A constructed record owning the payload buffer handed over by
`CreateObjFromVect` on success. -/
structure PackedObject where
  buf : ℕ
  deriving Repr, DecidableEq

/-- Modelled from the spec: `PackSparseElements` (not in this repository
snapshot) receives `pData` by reference (initially NULL), allocates the
payload buffer, and may fail mid-encoding; result, final `pData` value and
heap state are returned explicitly. -/
def packSparseElementsAlloc (outcome : PackOutcome) (s : AllocState) :
    Except Unit ℕ × Option ℕ × AllocState :=
  match outcome with
  | PackOutcome.ok =>
    (Except.ok s.nextBuf, some s.nextBuf,
      ⟨s.nextBuf + 1, s.allocated ++ [s.nextBuf], s.freed⟩)
  | PackOutcome.failBeforeAlloc => (Except.error (), none, s)
  | PackOutcome.failAfterAlloc =>
    (Except.error (), some s.nextBuf,
      ⟨s.nextBuf + 1, s.allocated ++ [s.nextBuf], s.freed⟩)

/-- The try/catch of `CreateObjFromVect` (source lines 53–65): on success
the buffer is handed to the new record; on any exception the catch block
performs `delete [] pData` (a no-op when `pData` is still NULL) exactly
once and rethrows. -/
def createObjFromVectAlloc (outcome : PackOutcome) (s : AllocState) :
    Except Unit PackedObject × AllocState :=
  match packSparseElementsAlloc outcome s with
  | (Except.ok b, _, s1) => (Except.ok ⟨b⟩, s1)
  | (Except.error e, some b, s1) =>
    (Except.error e, ⟨s1.nextBuf, s1.allocated, s1.freed ++ [b]⟩)
  | (Except.error e, none, s1) => (Except.error e, s1)

/-- C9: for every possible behavior of the packing step, starting from a
fresh heap: if packing throws, every buffer it allocated has been freed
exactly once by the time the error propagates (`freed = allocated`) and no
record is produced; on success nothing is freed and the single allocated
buffer is owned by the returned record (one handover, no double free, no
leak). -/
theorem spec_C9 (outcome : PackOutcome) :
    ((∃ e, (createObjFromVectAlloc outcome ⟨0, [], []⟩).1 = Except.error e) →
      (createObjFromVectAlloc outcome ⟨0, [], []⟩).2.freed =
        (createObjFromVectAlloc outcome ⟨0, [], []⟩).2.allocated) ∧
    (∀ obj, (createObjFromVectAlloc outcome ⟨0, [], []⟩).1 = Except.ok obj →
      (createObjFromVectAlloc outcome ⟨0, [], []⟩).2.freed = [] ∧
      (createObjFromVectAlloc outcome ⟨0, [], []⟩).2.allocated = [obj.buf]) := by
  cases outcome with
  | ok =>
    refine ⟨?_, ?_⟩
    · rintro ⟨e, he⟩
      simp [createObjFromVectAlloc, packSparseElementsAlloc] at he
    · intro obj hobj
      simp [createObjFromVectAlloc, packSparseElementsAlloc] at hobj ⊢
      simp [← hobj]
  | failBeforeAlloc =>
    refine ⟨fun _ => rfl, ?_⟩
    intro obj hobj
    simp [createObjFromVectAlloc, packSparseElementsAlloc] at hobj
  | failAfterAlloc =>
    refine ⟨fun _ => rfl, ?_⟩
    intro obj hobj
    simp [createObjFromVectAlloc, packSparseElementsAlloc] at hobj

theorem spec_C9_witness :
    (∃ e, (createObjFromVectAlloc PackOutcome.failAfterAlloc ⟨0, [], []⟩).1 =
      Except.error e) ∧
    (createObjFromVectAlloc PackOutcome.failAfterAlloc ⟨0, [], []⟩).2.freed =
      (createObjFromVectAlloc PackOutcome.failAfterAlloc ⟨0, [], []⟩).2.allocated :=
  ⟨⟨(), rfl⟩, (spec_C9 PackOutcome.failAfterAlloc).1 ⟨(), rfl⟩⟩

end SparseInter
